import Mathlib

/-!
Shallow embedding of the RainLabel metadata gateway (`src/backend/main.py`)
and proofs checking the natural-language specification against it.

Modelling conventions:
* Filesystem paths are lists of components of an absolute POSIX path
  (platform is POSIX: `os.sep = "/"`, `os.altsep = None`).
* `resolveLex` is the lexical part of `Path.resolve()` (no symlinks in the
  modelled filesystem); `Path.exists()` resolves before probing, so the
  model applies `resolveLex` before looking a path up.
* JSON numbers are modelled as rationals; the operations the code performs
  on them (comparison, `max`) agree with the float operations at the
  concrete values used in the claims.
* A filesystem is a finite list of entries (path, is-regular-file flag,
  and `stat` result, `none` modelling a raised `OSError`).
-/

namespace RainLabel

/-- One filesystem entry: an absolute canonical path (component list),
whether it is a regular file, and the size `stat` reports (`none` models a
`stat` failure). -/
structure FsEntry where
  path : List String
  isFile : Bool
  statSize : Option Int
deriving DecidableEq, Repr

/-- A modelled filesystem: the finite list of entries that exist. -/
def Fs := List FsEntry

/-- Lexical resolution of `..` and `.` components, the lexical content of
`Path.resolve()` for a symlink-free tree (on POSIX, `/..` stays at the
root, which `dropLast []= []` matches). -/
def resolveLex (p : List String) : List String :=
  p.foldl (fun acc c =>
    if c = ".." then acc.dropLast
    else if c = "." then acc
    else acc ++ [c]) []

/-- `_is_child_path` (main.py:70-76): `child.is_relative_to(parent)`,
which for already-resolved absolute paths is a lexical prefix test.
(The `except` fallback for Python < 3.9 is not modelled; on the supported
interpreter the primary branch always runs.) -/
def isChildPath (child parent : List String) : Bool :=
  parent.isPrefixOf child

/-- `Path.exists()` on a possibly unresolved path: the OS resolves the
path, then probes it. -/
def pathExists (fs : Fs) (p : List String) : Bool :=
  fs.any (fun e => e.path = resolveLex p)

/-- `Path.stat().st_size`: `none` models an `OSError`. -/
def statSizeOf (fs : Fs) (p : List String) : Option Int :=
  match fs.find? (fun e => e.path = resolveLex p) with
  | some e => e.statSize
  | none => none

/-- The resolved videos root, `VIDEOS_DIR = BASE_DIR / "videos"`
(main.py:61-64); `BASE_DIR` is resolved, so this path is canonical. -/
def videosRoot : List String := ["srv", "videos"]

/-- `VIDEO_EXTENSIONS` (main.py:67). -/
def VIDEO_EXTENSIONS : List String := [".mp4", ".avi", ".mov", ".mkv", ".webm"]

/-- Split a character list on `/`, keeping the non-empty components
(empty components collapse, as in `pathlib`). -/
def splitSlash : List Char → List Char → List String
  | [], acc => if acc = [] then [] else [String.mk acc.reverse]
  | c :: cs, acc =>
    if c = '/' then
      (if acc = [] then [] else [String.mk acc.reverse]) ++ splitSlash cs []
    else splitSlash cs (c :: acc)

/-- `pathlib` join `dir / name` for a relative name: the name is split on
the POSIX separator into components (empty components collapse, as in
`pathlib`). Absolute names (a leading slash replaces the base) do not
occur in the claims and are outside this model. -/
def joinRel (base : List String) (name : String) : List String :=
  base ++ splitSlash name.toList []

/-- Append a suffix string to the last component of a path, the model of
`Path(str(p) + s)` for a suffix without separators (main.py:105). -/
def pathAddSuffix (p : List String) (suf : String) : List String :=
  p.dropLast ++ [p.getLastD "" ++ suf]

/-! ### Python string helpers -/

/-- ASCII whitespace as recognised by `str.strip()` and `int()`
(non-ASCII Unicode whitespace is outside this model; no claim uses it). -/
def isPySpace (c : Char) : Bool :=
  c = ' ' || c = '\t' || c = '\n' || c = '\r' || c = '\x0b' || c = '\x0c'

/-- `str.strip()` on a character list. -/
def pyStripL (cs : List Char) : List Char :=
  ((cs.dropWhile isPySpace).reverse.dropWhile isPySpace).reverse

/-- `(video_name or "").strip()` (main.py:173). -/
def pyStrip (s : String) : String := String.mk (pyStripL s.toList)

/-- Contains a NUL byte. -/
def hasNulChar (cs : List Char) : Bool := cs.any (fun c => c = '\x00')

/-- Contains a path separator: `"/"`, `"\\"`, `os.sep` or `os.altsep`;
on POSIX `os.sep = "/"` and `os.altsep = None`, so the set is `{/, \}`
(main.py:87-89, 174-176). -/
def hasSepChar (cs : List Char) : Bool := cs.any (fun c => c = '/' || c = '\\')

/-- A character allowed by the allow-list regex `[A-Za-z0-9_-]`. -/
def isIdChar (c : Char) : Bool :=
  (('A' ≤ c && c ≤ 'Z') || ('a' ≤ c && c ≤ 'z') || ('0' ≤ c && c ≤ '9')
    || c = '_' || c = '-')

/-- `re.fullmatch(r"^[A-Za-z0-9_-]+$", s)` is a match. -/
def charClassOk (cs : List Char) : Bool := cs ≠ [] && cs.all isIdChar

/-! ### A model of `uuid.UUID(hex=s)` string acceptance (CPython)

CPython runs `hex.replace('urn:', '').replace('uuid:', '')`, then
`hex.strip('{}').replace('-', '')`, requires the result to have length
exactly 32, and feeds it to `int(hex, 16)`; the 128-bit range check can
never fail after the length check. `int(x, 16)` accepts optional
surrounding whitespace, an optional sign, an optional `0x`/`0X` prefix,
and hex digits with single underscores between digits (one also allowed
directly after the prefix). Non-ASCII digits/whitespace are outside this
model. -/

/-- `s.replace("urn:", "")`: remove non-overlapping occurrences left to
right. -/
def removeUrn : List Char → List Char
  | 'u' :: 'r' :: 'n' :: ':' :: cs => removeUrn cs
  | c :: cs => c :: removeUrn cs
  | [] => []

/-- `s.replace("uuid:", "")`. -/
def removeUuidColon : List Char → List Char
  | 'u' :: 'u' :: 'i' :: 'd' :: ':' :: cs => removeUuidColon cs
  | c :: cs => c :: removeUuidColon cs
  | [] => []

/-- `s.replace("-", "")`. -/
def removeDashes : List Char → List Char
  | '-' :: cs => removeDashes cs
  | c :: cs => c :: removeDashes cs
  | [] => []

/-- Is `{` or `}` (for `str.strip('\x7b\x7d')`). -/
def isBrace (c : Char) : Bool := c = '{' || c = '}'

/-- An ASCII hexadecimal digit. -/
def isHexD (c : Char) : Bool :=
  c.isDigit || ('a' ≤ c && c ≤ 'f') || ('A' ≤ c && c ≤ 'F')

/-- Continuation of a hex digit run: digits with single underscores
strictly between digits. -/
def hexTail : List Char → Bool
  | [] => true
  | ['_'] => false
  | '_' :: d :: cs => isHexD d && hexTail cs
  | c :: cs => isHexD c && hexTail cs

/-- A non-empty hex digit run (underscores between digits allowed). -/
def hexSeq : List Char → Bool
  | [] => false
  | c :: cs => isHexD c && hexTail cs

/-- Digit part after a `0x` prefix: one leading underscore is allowed. -/
def hexBody : List Char → Bool
  | '_' :: cs => hexSeq cs
  | cs => hexSeq cs

/-- `int(s, 16)` succeeds (ASCII model). -/
def pyIntHexOk (cs0 : List Char) : Bool :=
  let cs1 := (cs0.dropWhile isPySpace).reverse.dropWhile isPySpace |>.reverse
  let cs2 := match cs1 with
    | '+' :: t => t
    | '-' :: t => t
    | _ => cs1
  match cs2 with
  | '0' :: x :: t =>
    if x = 'x' || x = 'X' then hexBody t else hexSeq ('0' :: x :: t)
  | _ => hexSeq cs2

/-- `uuid.UUID(s)` does not raise. -/
def pyUuidOk (s : String) : Bool :=
  let a := removeUuidColon (removeUrn s.toList)
  let b := ((a.dropWhile isBrace).reverse.dropWhile isBrace).reverse
  let c := removeDashes b
  c.length = 32 && pyIntHexOk c

/-! ### Identifier validation -/

/-- Outcome of the boundary validation in `get_metadata`. -/
inductive ValidationOutcome where
  | rejected
  | accepted (sanitized : String)
deriving DecidableEq, Repr

/-- Validation block of `get_metadata` (main.py:172-190): strip, reject on
NUL or separator, then accept on UUID format or on the allow-list regex,
else reject. -/
def validateVideoName (raw : String) : ValidationOutcome :=
  let s := pyStrip raw
  if hasNulChar s.toList || hasSepChar s.toList then .rejected
  else if pyUuidOk s then .accepted s
  else if charClassOk s.toList then .accepted s
  else .rejected

/-- Validation block of `find_metadata_path` (main.py:85-99): empty, NUL,
separator, then UUID-or-regex; no strip here. -/
def validStem (stem : String) : Bool :=
  stem.toList ≠ [] &&
  !(hasNulChar stem.toList || hasSepChar stem.toList) &&
  (pyUuidOk stem || charClassOk stem.toList)

/-! ### Metadata location and video endpoints -/

/-- Loop body of `find_metadata_path` (main.py:102-108): for each
extension, the video candidate `vp = (VIDEOS_DIR / f"{stem}{ext}").resolve()`
is probed for existence and containment, then the sidecar
`Path(str(vp) + ".json").resolve()` with the same checks. -/
def sidecarSearch (fs : Fs) (stem : String) : List String → Option (List String)
  | [] => none
  | ext :: rest =>
    if pathExists fs (resolveLex (joinRel videosRoot (stem ++ ext)))
        && isChildPath (resolveLex (joinRel videosRoot (stem ++ ext)))
            (resolveLex videosRoot) then
      if pathExists fs
            (resolveLex (pathAddSuffix (resolveLex (joinRel videosRoot (stem ++ ext))) ".json"))
          && isChildPath
            (resolveLex (pathAddSuffix (resolveLex (joinRel videosRoot (stem ++ ext))) ".json"))
            (resolveLex videosRoot) then
        some (resolveLex (pathAddSuffix (resolveLex (joinRel videosRoot (stem ++ ext))) ".json"))
      else sidecarSearch fs stem rest
    else sidecarSearch fs stem rest

/-- `find_metadata_path` (main.py:79-108). -/
def find_metadata_path (fs : Fs) (stem : String) : Option (List String) :=
  if validStem stem then sidecarSearch fs stem VIDEO_EXTENSIONS else none

/-- `has_metadata_for` (main.py:110-112). -/
def has_metadata_for (fs : Fs) (stem : String) : Bool :=
  (find_metadata_path fs stem).isSome

/-- `PurePath` name splitting: `(stem, suffix)`; the suffix starts at the
last dot, which must be neither the first nor the last character. -/
def splitExt (name : String) : String × String :=
  let cs := name.toList
  let revAfter := cs.reverse.takeWhile (fun c => c ≠ '.')
  if cs.any (fun c => c = '.') && revAfter ≠ [] && revAfter.length + 1 < cs.length then
    (String.mk (cs.take (cs.length - revAfter.length - 1)),
     String.mk ('.' :: revAfter.reverse))
  else (name, "")

/-- `str.lower()` (ASCII model). -/
def lowerStr (s : String) : String := String.mk (s.toList.map Char.toLower)

/-- The video entry dictionary built by the endpoints. -/
structure VideoEntry where
  name : String
  filename : String
  path : String
  size : Int
  has_metadata : Bool
deriving DecidableEq, Repr

/-- `VIDEOS_DIR.iterdir()`: the direct children of a directory, in
filesystem enumeration order (the order of `fs`). -/
def dirEntries (fs : Fs) (dir : List String) : List FsEntry :=
  fs.filter (fun e => e.path.length = dir.length + 1 && e.path.take dir.length = dir)

/-- The file name of a directory entry. -/
def entryName (e : FsEntry) : String := e.path.getLastD ""

/-- `GET /videos` (main.py:124-150): keep regular files whose lowercased
suffix is a supported video extension, skip entries whose `stat` raises,
skip sizes `≤ 0`, and report `has_metadata` via the locator. -/
def get_videos (fs : Fs) : List VideoEntry :=
  (dirEntries fs videosRoot).filterMap (fun e =>
    if e.isFile && VIDEO_EXTENSIONS.contains (lowerStr (splitExt (entryName e)).2) then
      match e.statSize with
      | none => none
      | some sz =>
        if sz ≤ 0 then none
        else some {
          name := (splitExt (entryName e)).1
          filename := entryName e
          path := "/static/videos/" ++ entryName e
          size := sz
          has_metadata := has_metadata_for fs (splitExt (entryName e)).1 }
    else none)

/-- `GET /video/{video_name}` (main.py:152-167): for each extension probe
`VIDEOS_DIR / f"{video_name}{ext}"` (unresolved, no containment check) and
return the first existing file's info; `none` is the 404 outcome. A
`stat` raising after a successful existence probe is not modelled (no
claim exercises it): the entry's recorded size is used. -/
def get_video (fs : Fs) (video_name : String) : Option VideoEntry :=
  VIDEO_EXTENSIONS.findSome? (fun ext =>
    let video_path := joinRel videosRoot (video_name ++ ext)
    if pathExists fs video_path then
      some { name := video_name
             filename := video_path.getLastD ""
             path := "/static/videos/" ++ video_path.getLastD ""
             size := (statSizeOf fs video_path).getD 0
             has_metadata := has_metadata_for fs video_name }
    else none)

/-! ### Raw annotation documents and the schema normalizer

A raw document is a JSON object; the fields the normalizer touches are
modelled as optional fields (`none` = key absent). Label-list elements
are modelled as objects with all-optional fields (the `isinstance(x,
dict)` guard of main.py:220 is satisfied by construction; claims about
non-object label elements are not made). -/

/-- A segment dictionary `{start, end, confidence}`. -/
structure Seg where
  start : ℚ
  stop : ℚ
  confidence : ℚ
deriving DecidableEq, Repr

/-- One element of a raw `labels` array. `segments` present marks the
already-canonical shape; the flat shape carries scalar fields. -/
structure LabelItem where
  description : Option String
  entity : Option String
  start_time : Option ℚ
  end_time : Option ℚ
  confidence : Option ℚ
  category : Option (List String)
  categories : Option (List String)
  segments : Option (List Seg)
deriving DecidableEq, Repr

/-- A flat label item with every field absent. -/
def LabelItem.empty : LabelItem :=
  ⟨none, none, none, none, none, none, none, none⟩

/-- A raw annotation document (the keys `get_metadata` reads). The
`shots/objects/text/faces` payloads are passed through untouched, so they
are modelled opaquely as string lists. -/
structure RawDoc where
  video_name : Option String
  video_file : Option String
  labels : Option (List LabelItem)
  shots : Option (List String)
  objects : Option (List String)
  text : Option (List String)
  faces : Option (List String)
deriving DecidableEq, Repr

/-- The canonicality probe (main.py:220): `"labels" in raw and
any(isinstance(x, dict) and "segments" in x for x in raw.get("labels",
[]))`. -/
def isCanonicalDoc (raw : RawDoc) : Bool :=
  raw.labels.isSome && (raw.labels.getD []).any (fun it => it.segments.isSome)

/-- A grouped label produced by the transform branch. -/
structure LabelGroup where
  description : String
  confidence : ℚ
  categories : List String
  segments : List Seg
deriving DecidableEq, Repr

/-- `item.get("description") or item.get("entity") or "Unknown"`
(main.py:234): Python `or` takes the first truthy value, and a string is
truthy iff non-empty. -/
def descOf (it : LabelItem) : String :=
  match it.description with
  | some d => if d ≠ "" then d else (match it.entity with
      | some e => if e ≠ "" then e else "Unknown"
      | none => "Unknown")
  | none => match it.entity with
      | some e => if e ≠ "" then e else "Unknown"
      | none => "Unknown"

/-- `item.get("confidence", 0.0)` (main.py:237). -/
def confOf (it : LabelItem) : ℚ := it.confidence.getD 0

/-- `item.get("category") or item.get("categories") or []` (main.py:238):
first truthy value, a list being truthy iff non-empty. -/
def catsRawOf (it : LabelItem) : List String :=
  match it.category with
  | some l => if l ≠ [] then l else (match it.categories with
      | some m => if m ≠ [] then m else []
      | none => [])
  | none => match it.categories with
      | some m => if m ≠ [] then m else []
      | none => []

/-- `{c for c in cats if c}` as a list: truthy (non-empty) strings,
deduplicated. A Python set literal has unspecified iteration order; the
model fixes first-occurrence order. No claim depends on this order (sets
are compared as sets). -/
def catsTruthy (it : LabelItem) : List String :=
  ((catsRawOf it).filter (fun c => c ≠ "")).dedup

/-- Insertion sort on strings, the model of `sorted` (which orders
determinately); only the sortedness/membership of the result matters to
the claims. -/
def insertStr (a : String) : List String → List String
  | [] => [a]
  | b :: bs => if a ≤ b then a :: b :: bs else b :: insertStr a bs

/-- `sorted(xs)` for strings. -/
def sortStr : List String → List String
  | [] => []
  | a :: as => insertStr a (sortStr as)

/-- `sorted(set(g.categories) | {c for c in cats if c})` (main.py:249-250):
the sorted duplicate-free enumeration of the union set (the Python value
is a sort of a set, so it only depends on the union as a set; `new` is
already the truthy-filtered category list). -/
def sortedUnion (old new : List String) : List String :=
  sortStr (old ++ new).dedup

/-- The group created when a description is first seen (main.py:240-245). -/
def initGroup (d : String) (it : LabelItem) : LabelGroup :=
  { description := d
    confidence := confOf it
    categories := catsTruthy it
    segments := [] }

/-- The per-item update applied to the (now existing) group
(main.py:247-252): confidence becomes the max, categories are re-sorted
unioned when the raw category list is truthy, and a segment is appended
when both times are present. -/
def updateGroup (g : LabelGroup) (it : LabelItem) : LabelGroup :=
  let g1 := { g with confidence := max g.confidence (confOf it) }
  let g2 := if catsRawOf it ≠ [] then
      { g1 with categories := sortedUnion g1.categories (catsTruthy it) }
    else g1
  match it.start_time, it.end_time with
  | some s, some e => { g2 with segments := g2.segments ++ [⟨s, e, confOf it⟩] }
  | _, _ => g2

/-- One iteration of the grouping loop (main.py:233-252) over the
insertion-ordered dict, modelled as an association list: create the entry
when the description is new (main.py:239-245), then apply the unconditional
update (main.py:247-252) to that description's entry. -/
def procItem (st : List (String × LabelGroup)) (it : LabelItem) :
    List (String × LabelGroup) :=
  (if st.any (fun p => p.1 = descOf it) then st
   else st ++ [(descOf it, initGroup (descOf it) it)]).map
    (fun p => if p.1 = descOf it then (p.1, updateGroup p.2 it) else p)

/-- `grouped` after the loop, as `list(grouped.values())` (main.py:253). -/
def groupLabels (items : List LabelItem) : List LabelGroup :=
  (items.foldl procItem []).map (fun p => p.2)

/-- `raw.get("video_name") or raw.get("video_file", video_name)`
(main.py:224). -/
def transformedName (raw : RawDoc) (fallback : String) : String :=
  match raw.video_name with
  | some s => if s ≠ "" then s else raw.video_file.getD fallback
  | none => raw.video_file.getD fallback

/-- The transformed document built by the flat branch (main.py:223-253). -/
structure TransformedDoc where
  video_name : String
  labels : List LabelGroup
  shots : List String
  objects : List String
  text : List String
  faces : List String
deriving DecidableEq, Repr

/-- Result of the normalization step: either the raw document passed
through verbatim (main.py:221 `return raw`) or the transformed one. -/
inductive NormResult where
  | canonical (d : RawDoc)
  | transformed (t : TransformedDoc)
deriving DecidableEq, Repr

/-- The normalization performed by `get_metadata` once the file is parsed
(main.py:219-254). -/
def normalizeDoc (raw : RawDoc) (video_name : String) : NormResult :=
  if isCanonicalDoc raw then .canonical raw
  else .transformed {
    video_name := transformedName raw video_name
    labels := groupLabels (raw.labels.getD [])
    shots := raw.shots.getD []
    objects := raw.objects.getD []
    text := raw.text.getD []
    faces := raw.faces.getD [] }

/-! ### Metadata read outcome (main.py:216-258) -/

/-- Result of `json.load` on the located file: parsed, a
`json.JSONDecodeError`, or any other exception with its `str(e)` text. -/
inductive ReadResult where
  | ok (d : RawDoc)
  | jsonErr
  | otherErr (msg : String)
deriving DecidableEq, Repr

/-- What the endpoint sends back for the read/normalize phase. -/
inductive MetaResp where
  | success (n : NormResult)
  | error (status : Nat) (detail : String)
deriving DecidableEq, Repr

/-- The `try/except` around reading and normalizing (main.py:216-258):
JSON decode errors give a fixed 500 detail, any other exception gives a
500 whose detail interpolates `str(e)`. -/
def readMetadata (r : ReadResult) (video_name : String) : MetaResp :=
  match r with
  | .ok d => .success (normalizeDoc d video_name)
  | .jsonErr => .error 500 "Invalid metadata file"
  | .otherErr m => .error 500 ("Error reading metadata: " ++ m)

/-! ### Request throttle middleware (main.py:35-58) -/

/-- Prune the sliding window: `while window and window[0] < now - 60:
popleft()` (main.py:42-44). -/
def pruneW (now : ℚ) (w : List ℚ) : List ℚ :=
  w.dropWhile (fun t => t < now - 60)

/-- The rate-limit step (main.py:42-47): prune, reject when the remaining
count reaches the limit (timestamp not recorded), otherwise append. -/
def rlStep (limit : ℕ) (w : List ℚ) (now : ℚ) : Bool × List ℚ :=
  let w1 := pruneW now w
  if limit ≤ w1.length then (false, w1) else (true, w1 ++ [now])

/-- Run the rate limiter over a sequence of request times from a given
accumulated (flags, window) state. -/
def rlRunFrom (limit : ℕ) (acc : List Bool × List ℚ) (ts : List ℚ) :
    List Bool × List ℚ :=
  ts.foldl (fun acc now =>
    let r := rlStep limit acc.2 now
    (acc.1 ++ [r.1], r.2)) acc

/-- Run the rate limiter over a sequence of request times, collecting the
accept/reject flags. -/
def rlRun (limit : ℕ) (ts : List ℚ) : List Bool × List ℚ :=
  rlRunFrom limit ([], []) ts

/-- Outcome of the whole middleware for one request. -/
inductive MwOutcome where
  | rateLimited
  | payloadTooLarge
  | forwarded
deriving DecidableEq, Repr

/-- The full `_limits_middleware` body for one request (main.py:35-58):
the rate-limit check first (timestamp appended when it passes), then the
multipart `Content-Length` ceiling. `contentLength` is the parsed header
(`int(...)` with a fallback of `0` on parse failure); the guard fires when
it is truthy and exceeds the ceiling. -/
def mwStep (limit : ℕ) (maxSize : Int) (w : List ℚ) (now : ℚ)
    (isMultipart : Bool) (contentLength : Int) : MwOutcome × List ℚ :=
  let w1 := pruneW now w
  if limit ≤ w1.length then (.rateLimited, w1)
  else
    let w2 := w1 ++ [now]
    if isMultipart && (contentLength ≠ 0) && (maxSize < contentLength) then
      (.payloadTooLarge, w2)
    else (.forwarded, w2)

/-! ### Definitions used only to state claims -/

/-- Modelled from the spec: the four-step metadata search order claimed in
§4.2 — (1) `{identifier}.json` under a canonical metadata root, (2) the
sidecar next to a video file with the identifier as stem across
`VIDEO_EXTENSIONS` in order, (3) `{identifier}.json` under a labels root,
(4) the first lexical glob match `{identifier}*` under the labels root.
The metadata root and labels root exist nowhere in `src/backend/main.py`;
they are parameters here. -/
def specFindMetadataPath (fs : Fs) (metadataRoot labelsRoot : List String)
    (stem : String) : Option (List String) :=
  let s1 :=
    let p := metadataRoot ++ [stem ++ ".json"]
    if pathExists fs p then some p else none
  let s2 := VIDEO_EXTENSIONS.findSome? (fun ext =>
    let vp := videosRoot ++ [stem ++ ext]
    let sidecar := videosRoot ++ [stem ++ ext ++ ".json"]
    if pathExists fs vp && pathExists fs sidecar then some sidecar else none)
  let s3 :=
    let p := labelsRoot ++ [stem ++ ".json"]
    if pathExists fs p then some p else none
  let s4 :=
    (sortStr (((dirEntries fs labelsRoot).map entryName).filter
        (fun n => stem.isPrefixOf n))).head?.map (fun n => labelsRoot ++ [n])
  (((s1.or s2).or s3).or s4)

/-- The search `find_metadata_path` actually performs, written as a single
`findSome?` over the extension list: only sidecar candidates colocated
with the video file under the videos root, both resolved and checked for
containment. -/
def sidecarOnlyLocator (fs : Fs) (stem : String) : Option (List String) :=
  if validStem stem then
    VIDEO_EXTENSIONS.findSome? (fun ext =>
      let vroot := resolveLex videosRoot
      let vp := resolveLex (joinRel videosRoot (stem ++ ext))
      let sidecar := resolveLex (pathAddSuffix vp ".json")
      if pathExists fs vp && isChildPath vp vroot
          && (pathExists fs sidecar && isChildPath sidecar vroot) then
        some sidecar
      else none)
  else none

/-- Modelled from the spec: the canonical-document pass-through as the
claim words it, with `video_name` defaulted from the fallback name when it
is missing. -/
def specCanonicalPassThrough (raw : RawDoc) (fallback : String) : RawDoc :=
  { raw with video_name := some (raw.video_name.getD fallback) }

/-- The data of one label group that the permutation-invariance claim
compares: representative confidence, the category set, and the multiset of
segments (segment order is allowed to differ). -/
def gSummary (g : LabelGroup) : ℚ × Finset String × Multiset Seg :=
  (g.confidence, g.categories.toFinset, (g.segments : Multiset Seg))

/-- Look a description up among the produced groups and return its
comparison data. -/
def groupFind (gs : List LabelGroup) (d : String) :
    Option (ℚ × Finset String × Multiset Seg) :=
  (gs.find? (fun g => g.description = d)).map gSummary

/-- The segment dictionaries one flat item contributes (main.py:251-252):
one when both times are present, none otherwise. -/
def segsOf (it : LabelItem) : List Seg :=
  match it.start_time, it.end_time with
  | some s, some e => [⟨s, e, confOf it⟩]
  | _, _ => []

/-- How one flat item updates the comparison data of its description's
group: creation on first sight, then max/union/append. -/
def stepSummary (o : Option (ℚ × Finset String × Multiset Seg))
    (it : LabelItem) : Option (ℚ × Finset String × Multiset Seg) :=
  match o with
  | none => some (confOf it, (catsTruthy it).toFinset, (segsOf it : Multiset Seg))
  | some (c, K, S) =>
    some (max c (confOf it), K ∪ (catsTruthy it).toFinset, S + (segsOf it : Multiset Seg))

/-- First-match lookup in the association-list state of the grouping
loop. -/
def lookupG : List (String × LabelGroup) → String → Option LabelGroup
  | [], _ => none
  | (k, g) :: t, d => if k = d then some g else lookupG t d

/-- Comparison data of the group stored for a description in the loop
state. -/
def stSummary (st : List (String × LabelGroup)) (d : String) :
    Option (ℚ × Finset String × Multiset Seg) :=
  (lookupG st d).map gSummary

/-! ## Theorems -/

/-- Pruning drops nothing when every timestamp is still inside the
window. -/
theorem pruneW_eq_self {now : ℚ} {w : List ℚ} (h : ∀ x ∈ w, now - 60 ≤ x) :
    pruneW now w = w := by
  induction w with
  | nil => rfl
  | cons a l ih =>
    have ha : ¬ a < now - 60 := not_lt.mpr (h a (List.mem_cons_self a l))
    simp [pruneW, List.dropWhile_cons, ha]

/-- Pruning empties the window when every timestamp is stale. -/
theorem pruneW_eq_nil {now : ℚ} {w : List ℚ} (h : ∀ x ∈ w, x < now - 60) :
    pruneW now w = [] := by
  induction w with
  | nil => rfl
  | cons a l ih =>
    have ha : a < now - 60 := h a (List.mem_cons_self a l)
    have ih2 := ih (fun x hx => h x (List.mem_cons_of_mem a hx))
    simp only [pruneW, List.dropWhile_cons] at ih2 ⊢
    simp [ha, ih2]

/-- While the window holds fewer timestamps than the limit and no
timestamp can be pruned, every request is accepted and appended. -/
theorem rlRunFrom_all_accept (limit : ℕ) :
    ∀ (ts : List ℚ) (bs : List Bool) (w : List ℚ),
      (∀ x ∈ w ++ ts, ∀ y ∈ ts, y - 60 ≤ x) →
      w.length + ts.length ≤ limit →
      rlRunFrom limit (bs, w) ts = (bs ++ List.replicate ts.length true, w ++ ts) := by
  intro ts
  induction ts with
  | nil => intro bs w _ _; simp [rlRunFrom]
  | cons now ts ih =>
    intro bs w H HL
    have hw : ∀ x ∈ w, now - 60 ≤ x := fun x hx =>
      H x (List.mem_append_left _ hx) now (List.mem_cons_self now ts)
    have hprune : pruneW now w = w := pruneW_eq_self hw
    have hlt : ¬ limit ≤ w.length := by simp at HL; omega
    have hstep : rlStep limit w now = (true, w ++ [now]) := by
      simp [rlStep, hprune, hlt]
    have H2 : ∀ x ∈ (w ++ [now]) ++ ts, ∀ y ∈ ts, y - 60 ≤ x := by
      intro x hx y hy
      have hx2 : x ∈ w ++ now :: ts := by
        simp only [List.append_assoc, List.singleton_append] at hx
        exact hx
      exact H x hx2 y (List.mem_cons_of_mem now hy)
    have HL2 : (w ++ [now]).length + ts.length ≤ limit := by
      simp at HL ⊢; omega
    have goal1 : rlRunFrom limit (bs, w) (now :: ts)
        = rlRunFrom limit
            (bs ++ [(rlStep limit w now).1], (rlStep limit w now).2) ts := rfl
    rw [hstep] at goal1
    rw [goal1, ih (bs ++ [true]) (w ++ [now]) H2 HL2]
    simp [List.replicate_succ, List.append_assoc]

/-- C7: with limit `N ≥ 1`, `N` requests from one identity whose times all
lie within 60 seconds before a time `t` (and not after `t`) are all
accepted and recorded; the next request at `t` is rejected with its
timestamp not recorded and the window left as it was; and a request 61
seconds later is accepted again because pruning removes timestamps older
than 60 seconds. -/
theorem claim_C7_rate_limiter (N : ℕ) (ts : List ℚ) (t : ℚ)
    (hN : 1 ≤ N) (hlen : ts.length = N)
    (hwin : ∀ x ∈ ts, t - 60 ≤ x) (hmono : ∀ x ∈ ts, x ≤ t) :
    rlRun N ts = (List.replicate N true, ts) ∧
    rlStep N ts t = (false, ts) ∧
    (rlStep N ts (t + 61)).1 = true := by
  refine ⟨?_, ?_, ?_⟩
  · have H : ∀ x ∈ ([] : List ℚ) ++ ts, ∀ y ∈ ts, y - 60 ≤ x := by
      intro x hx y hy
      simp only [List.nil_append] at hx
      have h1 := hwin x hx
      have h2 := hmono y hy
      linarith
    have := rlRunFrom_all_accept N ts [] [] H (by simp [hlen])
    simpa [rlRun, hlen] using this
  · have hp : pruneW t ts = ts := pruneW_eq_self hwin
    simp [rlStep, hp, hlen]
  · have hp : pruneW (t + 61) ts = [] :=
      pruneW_eq_nil (by intro x hx; have := hmono x hx; linarith)
    have hz : ¬ N ≤ 0 := by omega
    simp [rlStep, hp, hz]

/-- Witness for C7 at `N = 1`, one request at time `0`, follow-up at
`t = 50` and at `t + 61 = 111`. -/
theorem claim_C7_rate_limiter_witness :
    rlRun 1 [(0 : ℚ)] = ([true], [0]) ∧
    rlStep 1 [(0 : ℚ)] 50 = (false, [0]) ∧
    (rlStep 1 [(0 : ℚ)] (50 + 61)).1 = true :=
  claim_C7_rate_limiter 1 [(0 : ℚ)] 50 le_rfl rfl
    (by intro x hx; simp at hx; subst hx; norm_num)
    (by intro x hx; simp at hx; subst hx; norm_num)

/-- C8 counterexample: with the default limits (120 requests/min, 50 MiB),
an oversized multipart request hitting an empty window is rejected with
the 413 outcome, yet its timestamp HAS been appended to the rate-limit
window — the append (main.py:47) happens before the size check
(main.py:49-57), so the claim that a 413-rejected request leaves the
window without a new timestamp is false. -/
theorem claim_C8_counterexample :
    mwStep 120 52428800 [] 100 true 52428801
      = (MwOutcome.payloadTooLarge, [100]) := by
  norm_num [mwStep, pruneW]

/-- C8 (amended): the window after the middleware is the pruned window,
with the current timestamp appended exactly when the request was not
rate-limited — i.e. also when it is rejected as an oversized multipart
payload; only rate-limited rejections record nothing. -/
theorem claim_C8_amended (limit : ℕ) (maxSize : Int) (w : List ℚ) (now : ℚ)
    (isMultipart : Bool) (contentLength : Int) :
    (mwStep limit maxSize w now isMultipart contentLength).2
      = pruneW now w ++
        (if (mwStep limit maxSize w now isMultipart contentLength).1
            = MwOutcome.rateLimited then [] else [now]) := by
  unfold mwStep
  by_cases h1 : limit ≤ (pruneW now w).length
  · simp [h1]
  · simp only [if_neg h1]
    split <;> simp

/-- C9 counterexample: a non-JSON read error produces a 500 whose detail
interpolates `str(e)` (main.py:258) — here a message carrying a
filesystem path — and two different internal errors produce two different
response bodies, so the body is not a generic message. -/
theorem claim_C9_counterexample :
    readMetadata
        (ReadResult.otherErr "[Errno 13] Permission denied: /srv/videos/x.json") "x"
      = MetaResp.error 500
          "Error reading metadata: [Errno 13] Permission denied: /srv/videos/x.json"
    ∧ readMetadata (ReadResult.otherErr "A") "x"
        ≠ readMetadata (ReadResult.otherErr "B") "x" := by
  constructor
  · rfl
  · decide

/-- C9 (amended): a JSON parse failure yields the fixed 500 detail
`Invalid metadata file`; every other read error yields a 500 whose detail
is `Error reading metadata: ` followed by the internal exception text
verbatim (which may include filesystem paths). -/
theorem claim_C9_amended (m name : String) :
    readMetadata (ReadResult.otherErr m) name
      = MetaResp.error 500 ("Error reading metadata: " ++ m)
    ∧ readMetadata ReadResult.jsonErr name
      = MetaResp.error 500 "Invalid metadata file" :=
  ⟨rfl, rfl⟩

/-- C10 counterexample: a zero-byte `clip1.mp4` is excluded from the
`/videos` listing, but `/video/clip1` happily returns an entry of size 0 —
`get_video` (main.py:156-165) performs no size check, so the claimed
invariant does not hold for the detail endpoint. -/
theorem claim_C10_counterexample :
    get_videos [⟨["srv", "videos", "clip1.mp4"], true, some 0⟩] = []
    ∧ get_video [⟨["srv", "videos", "clip1.mp4"], true, some 0⟩] "clip1"
        = some ⟨"clip1", "clip1.mp4", "/static/videos/clip1.mp4", 0, false⟩ := by
  decide

/-- C10 (amended): every entry of the `/videos` listing has size strictly
greater than zero (zero-byte files and entries whose `stat` fails are
excluded); the `/video/{identifier}` endpoint performs no size check and
can return a zero-size entry. -/
theorem claim_C10_amended (fs : Fs) (e : VideoEntry)
    (he : e ∈ get_videos fs) : 0 < e.size := by
  unfold get_videos at he
  rw [List.mem_filterMap] at he
  obtain ⟨a, -, ha⟩ := he
  split at ha
  · split at ha
    · cases ha
    · rename_i sz _
      split at ha
      · cases ha
      · rename_i hpos
        cases ha
        simpa using lt_of_not_le (fun hle => hpos (by omega))
  · cases ha

/-- Witness for C10 (amended) at a one-file filesystem. -/
theorem claim_C10_amended_witness :
    (⟨"ok", "ok.mp4", "/static/videos/ok.mp4", 7, false⟩ : VideoEntry)
        ∈ get_videos [⟨["srv", "videos", "ok.mp4"], true, some 7⟩]
    ∧ (0 : Int) < 7 :=
  ⟨by decide,
   claim_C10_amended [⟨["srv", "videos", "ok.mp4"], true, some 7⟩]
     ⟨"ok", "ok.mp4", "/static/videos/ok.mp4", 7, false⟩ (by decide)⟩

/-- C1: evaluation at the failing input `video_name = "../evil"`. The path
the `/video/{identifier}` endpoint probes, once resolved, lies outside the
videos root, yet the endpoint neither resolves it nor containment-checks
it and returns the file's entry instead of the not-found outcome. (The
metadata locator, by contrast, does resolve and containment-check every
path — see `find_metadata_path_contained`.) -/
theorem claim_C1_traversal_eval :
    isChildPath (resolveLex (joinRel videosRoot ("../evil" ++ ".mp4")))
        (resolveLex videosRoot) = false
    ∧ get_video [⟨["srv", "evil.mp4"], true, some 7⟩] "../evil"
        = some ⟨"../evil", "evil.mp4", "/static/videos/evil.mp4", 7, false⟩ := by
  decide

/-- Every path `find_metadata_path` returns has passed resolution and the
containment check against the resolved videos root. -/
theorem find_metadata_path_contained (fs : Fs) (stem : String)
    (p : List String) (h : find_metadata_path fs stem = some p) :
    isChildPath p (resolveLex videosRoot) = true := by
  unfold find_metadata_path at h
  split at h
  · suffices H : ∀ l q, sidecarSearch fs stem l = some q →
        isChildPath q (resolveLex videosRoot) = true from H _ _ h
    intro l
    induction l with
    | nil => intro q hq; cases hq
    | cons ext rest ih =>
      intro q hq
      unfold sidecarSearch at hq
      split at hq
      · split at hq
        · rename_i hcond
          cases hq
          exact (Bool.and_eq_true _ _ |>.mp hcond).2
        · exact ih q hq
      · exact ih q hq
  · cases h

/-- C2 counterexample: a metadata file `abc.json` sitting under a labels
root is found by the claimed four-step search but not by the code, whose
`find_metadata_path` searches only sidecars under `videos/` (its own
docstring says `under videos/ only`). -/
theorem claim_C2_counterexample :
    specFindMetadataPath [⟨["srv", "labels", "abc.json"], true, some 5⟩]
        ["srv", "metadata"] ["srv", "labels"] "abc"
      = some ["srv", "labels", "abc.json"]
    ∧ find_metadata_path [⟨["srv", "labels", "abc.json"], true, some 5⟩] "abc"
      = none := by
  decide

/-- The explicit loop of `find_metadata_path` equals a single `findSome?`
over the extension list with the conjoined existence/containment checks. -/
theorem sidecarSearch_eq_findSome (fs : Fs) (stem : String) :
    ∀ l : List String, sidecarSearch fs stem l
      = l.findSome? (fun ext =>
          let vroot := resolveLex videosRoot
          let vp := resolveLex (joinRel videosRoot (stem ++ ext))
          let sidecar := resolveLex (pathAddSuffix vp ".json")
          if pathExists fs vp && isChildPath vp vroot
              && (pathExists fs sidecar && isChildPath sidecar vroot) then
            some sidecar
          else none) := by
  intro l
  induction l with
  | nil => rfl
  | cons ext rest ih =>
    simp only [sidecarSearch, List.findSome?_cons]
    by_cases h1 : (pathExists fs (resolveLex (joinRel videosRoot (stem ++ ext)))
        && isChildPath (resolveLex (joinRel videosRoot (stem ++ ext)))
            (resolveLex videosRoot)) = true
    · by_cases h2 : (pathExists fs
            (resolveLex (pathAddSuffix (resolveLex (joinRel videosRoot (stem ++ ext))) ".json"))
          && isChildPath
            (resolveLex (pathAddSuffix (resolveLex (joinRel videosRoot (stem ++ ext))) ".json"))
            (resolveLex videosRoot)) = true
      · simp [h1, h2]
      · simp [h1, h2, ih]
    · simp [h1, ih]

/-- C2 (amended): the locator tries only sidecar candidates — for each
extension in `.mp4 .avi .mov .mkv .webm` order, a video file
`{identifier}{ext}` under the videos root with a colocated
`{identifier}{ext}.json`, both resolved and containment-checked — and
returns the first hit; there is no metadata-root, labels-root or glob
step, and absence of any hit yields `none`, not an error. -/
theorem claim_C2_amended (fs : Fs) (stem : String) :
    find_metadata_path fs stem = sidecarOnlyLocator fs stem := by
  unfold find_metadata_path sidecarOnlyLocator
  by_cases hv : validStem stem = true
  · simp only [hv, if_true, sidecarSearch_eq_findSome]
  · simp [hv]

/-- C3 counterexample: the raw string `" abc "` (an identifier surrounded
by spaces) is non-empty, has no NUL or separator character, and fails both
the UUID format check and the character-class check, so by the claim's
"exactly" it must be rejected; the endpoint instead strips whitespace
first (main.py:173) and accepts it as `"abc"`. -/
theorem claim_C3_counterexample :
    pyUuidOk " abc " = false
    ∧ charClassOk " abc ".toList = false
    ∧ hasNulChar " abc ".toList = false
    ∧ hasSepChar " abc ".toList = false
    ∧ (" abc " : String) ≠ ""
    ∧ validateVideoName " abc " = .accepted "abc" := by
  decide

/-- C3 (amended): the metadata endpoint rejects exactly the raw strings
whose whitespace-stripped form contains a NUL byte, contains a path
separator (`/` or `\` on POSIX), or fails both the UUID format check and
the character-class check `^[A-Za-z0-9_-]+$` (an empty stripped form fails
both checks); every other raw string is accepted. -/
theorem claim_C3_amended (raw : String) :
    validateVideoName raw = .rejected ↔
      (hasNulChar (pyStrip raw).toList = true
        ∨ hasSepChar (pyStrip raw).toList = true
        ∨ (pyUuidOk (pyStrip raw) = false
            ∧ charClassOk (pyStrip raw).toList = false)) := by
  unfold validateVideoName
  cases hn : hasNulChar (pyStrip raw).toList <;>
    cases hs : hasSepChar (pyStrip raw).toList <;>
      cases hu : pyUuidOk (pyStrip raw) <;>
        cases hc : charClassOk (pyStrip raw).toList <;>
          simp_all [String.toList]

/-- Witness for C3 (amended): a separator-bearing identifier is
rejected. -/
theorem claim_C3_amended_witness :
    validateVideoName "x/y" = .rejected :=
  (claim_C3_amended "x/y").mpr (Or.inr (Or.inl (by decide)))

/-- C4 counterexample: for a canonical document (non-empty labels list, an
element with a `segments` field) that lacks `video_name`, the code returns
the document verbatim (main.py:221) — `video_name` stays absent — whereas
the claim's defaulting rule would set it to the fallback name. -/
theorem claim_C4_counterexample :
    normalizeDoc
        ⟨none, none, some [{ LabelItem.empty with segments := some [] }],
          none, none, none, none⟩ "fb"
      = .canonical
          ⟨none, none, some [{ LabelItem.empty with segments := some [] }],
            none, none, none, none⟩
    ∧ normalizeDoc
        ⟨none, none, some [{ LabelItem.empty with segments := some [] }],
          none, none, none, none⟩ "fb"
      ≠ .canonical (specCanonicalPassThrough
          ⟨none, none, some [{ LabelItem.empty with segments := some [] }],
            none, none, none, none⟩ "fb")
    ∧ (specCanonicalPassThrough
          ⟨none, none, some [{ LabelItem.empty with segments := some [] }],
            none, none, none, none⟩ "fb").video_name = some "fb" := by
  refine ⟨by decide, by decide, by decide⟩

/-- C4 (amended): normalization is the identity on canonical documents —
whenever the labels field is a non-empty list in which some element has a
`segments` field, the document is returned entirely unchanged
(`shots/objects/text/faces/labels` untouched); in particular `video_name`
is not defaulted from the fallback name in this branch and stays absent
when missing. -/
theorem claim_C4_amended (raw : RawDoc) (fallback : String)
    (h : isCanonicalDoc raw = true) :
    normalizeDoc raw fallback = .canonical raw := by
  unfold normalizeDoc
  simp [h]

/-- Witness for C4 (amended) at a concrete canonical document. -/
theorem claim_C4_amended_witness :
    isCanonicalDoc
        ⟨some "v", none, some [{ LabelItem.empty with segments := some [] }],
          none, none, none, none⟩ = true
    ∧ normalizeDoc
        ⟨some "v", none, some [{ LabelItem.empty with segments := some [] }],
          none, none, none, none⟩ "fb"
      = .canonical
          ⟨some "v", none, some [{ LabelItem.empty with segments := some [] }],
            none, none, none, none⟩ :=
  ⟨by decide,
   claim_C4_amended
     ⟨some "v", none, some [{ LabelItem.empty with segments := some [] }],
       none, none, none, none⟩ "fb" (by decide)⟩

/-- C5: normalizing a document carrying exactly the two flat `Car` labels
of the scenario produces exactly one label group with the max confidence
0.9, category list `["Vehicle"]`, and the two segments in order. -/
theorem claim_C5_car_scenario :
    normalizeDoc
        ⟨none, none,
          some
            [{ LabelItem.empty with
                description := some "Car", start_time := some 1,
                end_time := some 2, confidence := some 0.8 },
             { LabelItem.empty with
                description := some "Car", start_time := some 5,
                end_time := some 6, confidence := some 0.9,
                category := some ["Vehicle"] }],
          none, none, none, none⟩ "car_clip"
      = .transformed
          { video_name := "car_clip"
            labels := [{ description := "Car", confidence := 0.9,
                         categories := ["Vehicle"],
                         segments := [⟨1, 2, 0.8⟩, ⟨5, 6, 0.9⟩] }]
            shots := [], objects := [], text := [], faces := [] } := by
  simp +decide only [normalizeDoc, isCanonicalDoc, transformedName,
    groupLabels, procItem, descOf, confOf, catsRawOf, catsTruthy,
    initGroup, updateGroup, sortedUnion, sortStr, insertStr,
    LabelItem.empty, List.foldl, List.map, List.any, List.filter,
    List.dedup, List.contains, Option.getD]
  norm_num

/-- `updateGroup` never changes the description key. -/
theorem updateGroup_description (g : LabelGroup) (it : LabelItem) :
    (updateGroup g it).description = g.description := by
  cases hst : it.start_time <;> cases het : it.end_time <;>
    by_cases hc : catsRawOf it = [] <;>
      simp [updateGroup, hst, het, hc]

/-- An empty raw category list contributes no truthy categories. -/
theorem catsTruthy_of_raw_nil {it : LabelItem} (h : catsRawOf it = []) :
    catsTruthy it = [] := by
  unfold catsTruthy
  rw [h]
  rfl

/-- Membership in an insertion-sort insert. -/
theorem mem_insertStr {x a : String} :
    ∀ {l : List String}, x ∈ insertStr a l ↔ x = a ∨ x ∈ l := by
  intro l
  induction l with
  | nil => simp [insertStr]
  | cons b bs ih =>
    by_cases hab : a ≤ b
    · simp [insertStr, hab]
    · simp [insertStr, hab, ih]
      tauto

/-- Sorting preserves membership. -/
theorem mem_sortStr {x : String} :
    ∀ {l : List String}, x ∈ sortStr l ↔ x ∈ l := by
  intro l
  induction l with
  | nil => simp [sortStr]
  | cons a as ih => simp [sortStr, mem_insertStr, ih]

/-- As a set, the sorted union is the union of the two category lists. -/
theorem toFinset_sortedUnion (old new : List String) :
    (sortedUnion old new).toFinset = old.toFinset ∪ new.toFinset := by
  ext x
  simp [sortedUnion, mem_sortStr, List.mem_dedup]

/-- The comparison data of an updated group: confidence becomes the max,
the category set the union, and the segment multiset the sum. -/
theorem gSummary_updateGroup (g : LabelGroup) (it : LabelItem) :
    gSummary (updateGroup g it)
      = (max g.confidence (confOf it),
         g.categories.toFinset ∪ (catsTruthy it).toFinset,
         (g.segments : Multiset Seg) + (↑(segsOf it) : Multiset Seg)) := by
  cases hst : it.start_time <;> cases het : it.end_time <;>
    by_cases hc : catsRawOf it = [] <;>
      simp [updateGroup, gSummary, segsOf, hst, het, hc,
        toFinset_sortedUnion, catsTruthy_of_raw_nil,
        ← Multiset.coe_add]

/-- The dict-membership probe agrees with the lookup. -/
theorem lookupG_isSome (st : List (String × LabelGroup)) (d : String) :
    st.any (fun p => p.1 = d) = (lookupG st d).isSome := by
  induction st with
  | nil => rfl
  | cons p st ih =>
    obtain ⟨k, g⟩ := p
    by_cases h : k = d <;> simp [lookupG, h, ih]

/-- Looking up after appending a fresh entry at the end. -/
theorem lookupG_append (st : List (String × LabelGroup)) (k : String)
    (g : LabelGroup) (d : String) :
    lookupG (st ++ [(k, g)]) d
      = match lookupG st d with
        | some x => some x
        | none => if k = d then some g else none := by
  induction st with
  | nil => simp [lookupG]
  | cons p st ih =>
    obtain ⟨k2, g2⟩ := p
    by_cases h : k2 = d <;> simp [lookupG, h, ih]

/-- Looking up through the keyed in-place update map. -/
theorem lookupG_map_upd (st : List (String × LabelGroup)) (dk : String)
    (it : LabelItem) (d : String) :
    lookupG (st.map (fun p => if p.1 = dk then (p.1, updateGroup p.2 it) else p)) d
      = (lookupG st d).map (fun g => if d = dk then updateGroup g it else g) := by
  induction st with
  | nil => rfl
  | cons p st ih =>
    obtain ⟨k, g⟩ := p
    have hhead : (if (k, g).1 = dk then ((k, g).1, updateGroup (k, g).2 it) else (k, g))
        = if k = dk then (k, updateGroup g it) else (k, g) := rfl
    rw [List.map_cons, hhead]
    by_cases hk : k = dk
    · rw [if_pos hk]
      by_cases hd2 : k = d
      · subst hd2
        simp [lookupG, hk]
      · have hddk : ¬ d = dk := fun h => hd2 (hk.trans h.symm)
        simp [lookupG, hd2, hddk, ih]
    · rw [if_neg hk]
      by_cases hd2 : k = d
      · subst hd2
        simp [lookupG, hk]
      · simp [lookupG, hd2, ih]

/-- One grouping-loop iteration, seen through the comparison data of a
fixed description: create on first sight, merge on later sightings,
untouched for other descriptions. -/
theorem stSummary_procItem (st : List (String × LabelGroup)) (it : LabelItem)
    (d : String) :
    stSummary (procItem st it) d
      = if descOf it = d then stepSummary (stSummary st d) it
        else stSummary st d := by
  unfold procItem
  by_cases hd : descOf it = d
  · subst hd
    rw [if_pos rfl]
    by_cases hany : st.any (fun p => p.1 = descOf it)
    · rw [if_pos hany]
      rw [stSummary, stSummary, lookupG_map_upd]
      have h1 : (lookupG st (descOf it)).isSome = true := by
        rw [← lookupG_isSome]
        exact hany
      rcases hG : lookupG st (descOf it) with _ | g
      · rw [hG] at h1
        cases h1
      · show some (gSummary (if descOf it = descOf it then updateGroup g it else g))
            = stepSummary (some (gSummary g)) it
        rw [if_pos rfl, gSummary_updateGroup]
        rfl
    · rw [if_neg hany]
      have hnone : lookupG st (descOf it) = none := by
        cases hG : lookupG st (descOf it) with
        | none => rfl
        | some g =>
          exact absurd (by rw [lookupG_isSome, hG]; rfl) hany
      have hupd : gSummary (updateGroup (initGroup (descOf it) it) it)
          = (confOf it, (catsTruthy it).toFinset,
              (↑(segsOf it) : Multiset Seg)) := by
        rw [gSummary_updateGroup]
        simp [initGroup, Finset.union_self, Multiset.coe_nil]
      rw [stSummary, stSummary, lookupG_map_upd, lookupG_append, hnone]
      simp [stepSummary, hupd]
  · rw [if_neg hd]
    have hd2 : ¬ d = descOf it := fun h => hd h.symm
    by_cases hany : st.any (fun p => p.1 = descOf it)
    · rw [if_pos hany, stSummary, stSummary, lookupG_map_upd]
      rcases hG : lookupG st d with _ | g <;> simp [hG, hd2]
    · rw [if_neg hany, stSummary, stSummary, lookupG_map_upd, lookupG_append]
      rcases hG : lookupG st d with _ | g <;> simp [hG, hd2, hd]

/-- Folding the grouping loop over the items, seen through the comparison
data of a fixed description, is a fold of the per-item merge over exactly
the matching items. -/
theorem stSummary_foldl (l : List LabelItem) :
    ∀ (st : List (String × LabelGroup)) (d : String),
      stSummary (l.foldl procItem st) d
        = (l.filter (fun it => descOf it = d)).foldl stepSummary (stSummary st d) := by
  induction l with
  | nil => intro st d; rfl
  | cons it l ih =>
    intro st d
    rw [List.foldl_cons, ih, stSummary_procItem]
    by_cases hd : descOf it = d <;> simp [hd, List.filter_cons]

/-- The loop state always stores each group under its own description. -/
theorem inv_procItem (st : List (String × LabelGroup)) (it : LabelItem)
    (h : ∀ p ∈ st, p.2.description = p.1) :
    ∀ p ∈ procItem st it, p.2.description = p.1 := by
  intro p hp
  unfold procItem at hp
  rw [List.mem_map] at hp
  obtain ⟨q, hq, rfl⟩ := hp
  have hq2 : q.2.description = q.1 := by
    split at hq
    · exact h q hq
    · rcases List.mem_append.mp hq with h1 | h1
      · exact h q h1
      · simp only [List.mem_singleton] at h1
        rw [h1]
        rfl
  by_cases hk : q.1 = descOf it <;> simp [hk, updateGroup_description, hq2]

/-- The description-keying invariant holds after the whole fold. -/
theorem inv_foldl (l : List LabelItem) :
    ∀ st, (∀ p ∈ st, p.2.description = p.1) →
      ∀ p ∈ l.foldl procItem st, p.2.description = p.1 := by
  induction l with
  | nil => intro st h; exact h
  | cons it l ih => intro st h; exact ih _ (inv_procItem st it h)

/-- Under the keying invariant, finding a group by description among the
values equals the association-list lookup. -/
theorem groupFind_eq_stSummary (st : List (String × LabelGroup)) (d : String)
    (h : ∀ p ∈ st, p.2.description = p.1) :
    groupFind (st.map (fun p => p.2)) d = stSummary st d := by
  induction st with
  | nil => rfl
  | cons p st ih =>
    obtain ⟨k, g⟩ := p
    have hdesc : g.description = k := h (k, g) (List.mem_cons_self _ _)
    have htail : ∀ q ∈ st, q.2.description = q.1 :=
      fun q hq => h q (List.mem_cons_of_mem _ hq)
    have ih2 := ih htail
    unfold groupFind stSummary at ih2 ⊢
    rw [List.map_cons]
    have hsnd : ((k, g) : String × LabelGroup).2 = g := rfl
    rw [hsnd]
    by_cases hk : k = d
    · rw [List.find?_cons]
      simp [hdesc, hk, lookupG]
    · have hb : decide (g.description = d) = false := by
        simp [hdesc, hk]
      have hlk : lookupG ((k, g) :: st) d = lookupG st d := by
        simp [lookupG, hk]
      rw [List.find?_cons, hb, hlk]
      exact ih2

/-- The per-item merge is commutative in the items, which is what makes
the grouping independent of item order. -/
theorem stepSummary_comm (z : Option (ℚ × Finset String × Multiset Seg))
    (a b : LabelItem) :
    stepSummary (stepSummary z a) b = stepSummary (stepSummary z b) a := by
  rcases z with _ | ⟨c, K, S⟩
  · show (some (max (confOf a) (confOf b),
        (catsTruthy a).toFinset ∪ (catsTruthy b).toFinset,
        (↑(segsOf a) : Multiset Seg) + ↑(segsOf b)) : Option _)
      = some (max (confOf b) (confOf a),
        (catsTruthy b).toFinset ∪ (catsTruthy a).toFinset,
        (↑(segsOf b) : Multiset Seg) + ↑(segsOf a))
    rw [max_comm, Finset.union_comm, add_comm]
  · show (some (max (max c (confOf a)) (confOf b),
        K ∪ (catsTruthy a).toFinset ∪ (catsTruthy b).toFinset,
        S + ↑(segsOf a) + ↑(segsOf b)) : Option _)
      = some (max (max c (confOf b)) (confOf a),
        K ∪ (catsTruthy b).toFinset ∪ (catsTruthy a).toFinset,
        S + ↑(segsOf b) + ↑(segsOf a))
    rw [sup_right_comm c, Finset.union_right_comm, add_right_comm]

/-- C6: the grouping transform is permutation-invariant — normalizing any
permutation of a flat label list yields, for every description, the same
group data: the same representative confidence (the max of contributing
observations), the same category set (the union), and the same segments
up to order (compared as a multiset); in particular the same set of
descriptions. -/
theorem claim_C6_permutation_invariance (l l2 : List LabelItem)
    (hp : l.Perm l2) (d : String) :
    groupFind (groupLabels l) d = groupFind (groupLabels l2) d := by
  unfold groupLabels
  rw [groupFind_eq_stSummary _ _ (inv_foldl l [] (by intro p hmem; cases hmem)),
    groupFind_eq_stSummary _ _ (inv_foldl l2 [] (by intro p hmem; cases hmem)),
    stSummary_foldl, stSummary_foldl]
  exact (hp.filter _).foldl_eq' (fun x _ y _ z => stepSummary_comm z x y) _

/-- Witness for C6: the two `Car` labels of the C5 scenario, in both
orders. -/
theorem claim_C6_permutation_invariance_witness :
    groupFind
        (groupLabels
          [{ LabelItem.empty with
              description := some "Car", start_time := some 1,
              end_time := some 2, confidence := some 1 },
           { LabelItem.empty with
              description := some "Car", start_time := some 5,
              end_time := some 6, confidence := some 2,
              category := some ["Vehicle"] }]) "Car"
      = groupFind
          (groupLabels
            [{ LabelItem.empty with
                description := some "Car", start_time := some 5,
                end_time := some 6, confidence := some 2,
                category := some ["Vehicle"] },
             { LabelItem.empty with
                description := some "Car", start_time := some 1,
                end_time := some 2, confidence := some 1 }]) "Car" :=
  claim_C6_permutation_invariance _ _
    (List.Perm.swap _ _ _) "Car"

end RainLabel
